import Mathlib

/-!
Shallow embedding of the task-management Django application
(`task_management` app: `models.py`, `serializers.py`, `signals.py`,
`views.py`).  Timestamps are modelled as natural numbers (`timezone.now()`
becomes an explicit `now : Nat` argument), the database tables as lists,
and fallible request handlers as `Except`.
-/

namespace TaskMgmt

/-- Status choices of `Task.STATUS_CHOICES` in `models.py`. -/
inductive Status where
  | pending
  | in_progress
  | completed
  | cancelled
deriving DecidableEq, Repr

/-- Row of the `Task` table (`models.py`, class `Task`).  `task_type` and
`completed_at` are nullable; `assignees` lives in the separate
`TaskAssignment` table. -/
structure Task where
  name : String
  description : String
  created_at : Nat
  task_type : Option Nat
  completed_at : Option Nat
  status : Status
deriving DecidableEq, Repr

/-- Row of the `TaskAssignment` through table (`models.py`,
class `TaskAssignment`). -/
structure TaskAssignment where
  task_id : Nat
  user_id : Nat
  assigned_at : Nat
  assigned_by : Option Nat
deriving DecidableEq, Repr

/-- `Task.mark_completed` (`models.py` lines 105-111): unconditionally sets
`status` to `completed` and `completed_at` to the current time, then saves. -/
def mark_completed (now : Nat) (t : Task) : Task :=
  { t with status := Status.completed, completed_at := some now }

/-- The `pre_save` signal handler `task_pre_save` (`signals.py` lines 11-27):
when the status stored in the database differs from the instance being saved,
the new status is `completed`, and `completed_at` is unset (falsy), the
handler calls `mark_completed` on the instance before it is written. -/
def task_pre_save (old inst : Task) (now : Nat) : Task :=
  if old.status ≠ inst.status ∧ inst.status = Status.completed ∧
      inst.completed_at = none then
    mark_completed now inst
  else
    inst

/-- Saving a task instance over the stored row `old`: the `pre_save` signal
runs, then the (possibly adjusted) instance is written. -/
def saveTask (old inst : Task) (now : Nat) : Task :=
  task_pre_save old inst now

/-- `TaskViewSet.complete` (`views.py` lines 93-99): calls
`task.mark_completed()`, whose `save()` fires the `pre_save` signal with the
stored row as `old`. -/
def completeAction (now : Nat) (t : Task) : Task :=
  saveTask t (mark_completed now t) now

/-- `TaskViewSet.cancel` (`views.py` lines 101-108): sets `status` to
`cancelled` and saves (firing the `pre_save` signal). -/
def cancelAction (now : Nat) (t : Task) : Task :=
  saveTask t { t with status := Status.cancelled } now

/-- Input accepted by `TaskCreateSerializer` (`serializers.py` lines 52-63):
fields `name`, `description`, `task_type`, `status`. -/
structure TaskCreateInput where
  name : String
  description : String
  task_type : Option Nat
  status : Status
deriving DecidableEq, Repr

/-- `TaskCreateSerializer.validate_status` (`serializers.py` lines 59-63):
rejects an initial status of `completed`. -/
def validate_status (value : Status) : Except String Status :=
  if value = Status.completed then
    Except.error "Cannot create a task with 'completed' status. Create it first, then mark as completed."
  else
    Except.ok value

/-- Task creation through `TaskCreateSerializer`: validation of `status`,
then a fresh row with `created_at = now` and `completed_at` null. -/
def createTask (inp : TaskCreateInput) (now : Nat) : Except String Task :=
  match validate_status inp.status with
  | Except.error e => Except.error e
  | Except.ok s =>
      Except.ok { name := inp.name, description := inp.description,
                  created_at := now, task_type := inp.task_type,
                  completed_at := none, status := s }

/-- Partial update payload accepted by `TaskUpdateSerializer`
(`serializers.py` lines 65-76): each field may be absent. -/
structure UpdateData where
  name : Option String
  description : Option String
  task_type : Option (Option Nat)
  status : Option Status
deriving DecidableEq, Repr

/-- Applying the validated fields of an update payload onto an instance,
as DRF's `ModelSerializer.update` does with `setattr`. -/
def applyUpdate (t : Task) (d : UpdateData) : Task :=
  { t with name := d.name.getD t.name,
           description := d.description.getD t.description,
           task_type := d.task_type.getD t.task_type,
           status := d.status.getD t.status }

/-- `TaskUpdateSerializer` end to end (`serializers.py` lines 65-76):
`validate` calls `instance.mark_completed()` when the payload sets status to
`completed` (which saves the instance), then `update` applies the payload
fields and saves again, firing the `pre_save` signal over the stored row. -/
def updateAction (t : Task) (d : UpdateData) (now : Nat) : Task :=
  let t1 := if d.status = some Status.completed then mark_completed now t else t
  saveTask t1 (applyUpdate t1 d) now

/-- A task row used in concrete counterexamples and witnesses. -/
def sampleTask : Task :=
  { name := "t", description := "", created_at := 0, task_type := none,
    completed_at := none, status := Status.pending }

/-- Lookup of the `TaskAssignment` row for a `(task, user)` pair, the query
`TaskAssignment.objects.get(task=..., user_id=...)` underlying
`get_or_create`. -/
def findAssign (l : List TaskAssignment) (tid uid : Nat) : Option TaskAssignment :=
  l.find? (fun a => decide (a.task_id = tid ∧ a.user_id = uid))

/-- `TaskAssignment.objects.get_or_create(task=..., user_id=...,
defaults=\x7b'assigned_by': ...\x7d)` (used in `models.py` lines 126-130 and
`serializers.py` lines 106-110): returns the existing row unchanged, or
appends a fresh row carrying `assigned_at = now` and the given
`assigned_by`. -/
def getOrCreateAssign (l : List TaskAssignment) (tid uid : Nat)
    (actor : Option Nat) (now : Nat) : TaskAssignment × List TaskAssignment :=
  match findAssign l tid uid with
  | some a => (a, l)
  | none =>
      let a : TaskAssignment :=
        { task_id := tid, user_id := uid, assigned_at := now, assigned_by := actor }
      (a, l ++ [a])

/-- `Task.assign_to_users` (`models.py` lines 113-134): for each id in order,
get-or-create an assignment; returns the collected assignment objects and
the resulting table. -/
def assign_to_users (l : List TaskAssignment) (tid : Nat) (user_ids : List Nat)
    (assigned_by : Option Nat) (now : Nat) :
    List TaskAssignment × List TaskAssignment :=
  user_ids.foldl
    (fun acc uid =>
      let r := getOrCreateAssign acc.2 tid uid assigned_by now
      (acc.1 ++ [r.1], r.2))
    ([], l)

/-- The delete step of `TaskAssignmentCreateSerializer.create`
(`serializers.py` line 102):
`TaskAssignment.objects.filter(task=task).exclude(user_id__in=user_ids).delete()`
removes the rows of this task whose user is not in the desired list. -/
def deleteOtherAssignments (l : List TaskAssignment) (tid : Nat)
    (user_ids : List Nat) : List TaskAssignment :=
  l.filter (fun a => decide (¬(a.task_id = tid ∧ a.user_id ∉ user_ids)))

/-- The body of `TaskAssignmentCreateSerializer.create` (`serializers.py`
lines 94-112): delete the assignments of this task that are not in the new
list, then `get_or_create` one assignment per requested user id. -/
def reconcileAssignments (l : List TaskAssignment) (tid : Nat)
    (user_ids : List Nat) (actor : Option Nat) (now : Nat) :
    List TaskAssignment :=
  user_ids.foldl
    (fun acc uid => (getOrCreateAssign acc tid uid actor now).2)
    (deleteOtherAssignments l tid user_ids)

/-- `TaskAssignmentCreateSerializer.validate_user_ids` (`serializers.py`
lines 85-92): `existing_users = User.objects.filter(id__in=value)`; if its
length differs from `len(value)`, raise a validation error listing the ids
of `value` that are not among the found ids; otherwise accept. The `users`
argument is the id column of the `User` table. -/
def validate_user_ids (users : List Nat) (value : List Nat) :
    Except (List Nat) (List Nat) :=
  if (users.filter (fun u => decide (u ∈ value))).length ≠ value.length then
    Except.error (value.filter (fun i =>
      decide (i ∉ users.filter (fun u => decide (u ∈ value)))))
  else
    Except.ok value

/-- `TaskViewSet.assign` (`views.py` lines 74-91) driving
`TaskAssignmentCreateSerializer`: `is_valid` runs `validate_user_ids`; on
failure a 400 is returned and nothing is written; on success `create`
reconciles the assignment table. -/
def assignEndpoint (users : List Nat) (l : List TaskAssignment) (tid : Nat)
    (user_ids : List Nat) (actor : Option Nat) (now : Nat) :
    Except (List Nat) (List TaskAssignment) :=
  match validate_user_ids users user_ids with
  | Except.error missing => Except.error missing
  | Except.ok v => Except.ok (reconcileAssignments l tid v actor now)

/-- The primitive database writes executed inside the `transaction.atomic()`
block of `TaskAssignmentCreateSerializer.create`, in program order: the
bulk delete, then one `get_or_create` per requested id. -/
def reconcileSteps (tid : Nat) (user_ids : List Nat) (actor : Option Nat)
    (now : Nat) : List (List TaskAssignment → List TaskAssignment) :=
  (fun l => deleteOtherAssignments l tid user_ids) ::
    user_ids.map (fun uid l => (getOrCreateAssign l tid uid actor now).2)

/-- Running a sequence of database writes with a fault model: `failAt k`
says whether the k-th write raises; execution stops (returns `none`) at the
first raising write, leaving the writes after it unexecuted. -/
def runSteps : List (α → α) → (Nat → Bool) → Nat → α → Option α
  | [], _, _, s => some s
  | st :: rest, failAt, k, s =>
      if failAt k then none else runSteps rest failAt (k + 1) (st s)

/-- `with transaction.atomic():` around the reconcile body (`serializers.py`
lines 100-110): if every write succeeds the final state is committed; if any
write raises, the whole block rolls back to the state before the call. -/
def atomicReconcile (l : List TaskAssignment) (tid : Nat)
    (user_ids : List Nat) (actor : Option Nat) (now : Nat)
    (failAt : Nat → Bool) : List TaskAssignment :=
  match runSteps (reconcileSteps tid user_ids actor now) failAt 0 l with
  | some l2 => l2
  | none => l

/-- The `unique_together = ('task', 'user')` constraint of
`TaskAssignment.Meta` (`models.py` line 166): no two rows share the same
`(task_id, user_id)` pair. -/
def uniquePairs (l : List TaskAssignment) : Prop :=
  l.Pairwise (fun a b => a.task_id ≠ b.task_id ∨ a.user_id ≠ b.user_id)

instance (l : List TaskAssignment) : Decidable (uniquePairs l) :=
  inferInstanceAs (Decidable (l.Pairwise _))

end TaskMgmt

namespace TaskMgmt

/-- Helper: `findAssign` over an appended singleton consults the old table
first and the new row second. -/
theorem findAssign_append_single (l : List TaskAssignment) (a : TaskAssignment)
    (tid u : Nat) :
    findAssign (l ++ [a]) tid u =
      match findAssign l tid u with
      | some b => some b
      | none =>
          if a.task_id = tid ∧ a.user_id = u then some a else none := by
  unfold findAssign
  rw [List.find?_append]
  cases hf : List.find? (fun a => decide (a.task_id = tid ∧ a.user_id = u)) l with
  | some b => rfl
  | none =>
      by_cases hp : a.task_id = tid ∧ a.user_id = u
      · simp [Option.orElse, List.find?, hp]
      · simp [Option.orElse, List.find?, hp]

/-- Helper: after folding `get_or_create` over a list of user ids, the row
found for `(tid, u)` is the old row when one existed, a fresh row stamped
with `now` and `actor` when `u` was requested and absent, and the old lookup
result otherwise. -/
theorem foldAssign_findAssign (uids : List Nat) (tid u : Nat)
    (actor : Option Nat) (now : Nat) (acc : List TaskAssignment) :
    findAssign
        (uids.foldl (fun acc uid => (getOrCreateAssign acc tid uid actor now).2) acc)
        tid u =
      if u ∈ uids then
        some ((findAssign acc tid u).getD
          { task_id := tid, user_id := u, assigned_at := now, assigned_by := actor })
      else findAssign acc tid u := by
  induction uids generalizing acc with
  | nil => simp
  | cons v rest ih =>
      rw [List.foldl_cons, ih]
      cases hf : findAssign acc tid v with
      | some a =>
          have hA : (getOrCreateAssign acc tid v actor now).2 = acc := by
            simp [getOrCreateAssign, hf]
          rw [hA]
          by_cases hr : u ∈ rest
          · simp [hr, List.mem_cons]
          · by_cases huv : u = v
            · subst huv
              simp [hr, hf, List.mem_cons]
            · simp [hr, huv, List.mem_cons]
      | none =>
          have hA : (getOrCreateAssign acc tid v actor now).2 =
              acc ++ [{ task_id := tid, user_id := v, assigned_at := now,
                        assigned_by := actor }] := by
            simp [getOrCreateAssign, hf]
          rw [hA, findAssign_append_single]
          by_cases huv : u = v
          · subst huv
            rw [hf]
            simp [List.mem_cons]
          · cases hfu : findAssign acc tid u with
            | some b => simp [hfu, List.mem_cons, huv]
            | none => simp [hfu, List.mem_cons, huv, Ne.symm huv]

/-- Helper: the `get_or_create` fold for task `tid` never touches the rows
looked up under a different task id. -/
theorem foldAssign_findAssign_other (uids : List Nat) (tid tid' u : Nat)
    (actor : Option Nat) (now : Nat) (acc : List TaskAssignment)
    (h : tid' ≠ tid) :
    findAssign
        (uids.foldl (fun acc uid => (getOrCreateAssign acc tid uid actor now).2) acc)
        tid' u = findAssign acc tid' u := by
  induction uids generalizing acc with
  | nil => rfl
  | cons v rest ih =>
      rw [List.foldl_cons, ih]
      cases hf : findAssign acc tid v with
      | some a => simp [getOrCreateAssign, hf]
      | none =>
          have hA : (getOrCreateAssign acc tid v actor now).2 =
              acc ++ [{ task_id := tid, user_id := v, assigned_at := now,
                        assigned_by := actor }] := by
            simp [getOrCreateAssign, hf]
          rw [hA, findAssign_append_single]
          cases hfu : findAssign acc tid' u with
          | some b => simp
          | none => simp [fun hh : tid = tid' ∧ _ => h hh.1.symm, h.symm]

/-- Helper: the lookup finds the head when it is the requested pair. -/
theorem findAssign_cons_of_pos (l : List TaskAssignment) (a : TaskAssignment)
    (tid u : Nat) (h : a.task_id = tid ∧ a.user_id = u) :
    findAssign (a :: l) tid u = some a :=
  List.find?_cons_of_pos l (decide_eq_true h)

/-- Helper: the lookup skips the head when it is not the requested pair. -/
theorem findAssign_cons_of_neg (l : List TaskAssignment) (a : TaskAssignment)
    (tid u : Nat) (h : ¬(a.task_id = tid ∧ a.user_id = u)) :
    findAssign (a :: l) tid u = findAssign l tid u :=
  List.find?_cons_of_neg l (by simp [decide_eq_false h])

/-- Helper: the delete step removes a head row of the reconciled task whose
user is no longer desired. -/
theorem delete_cons_of_del (l : List TaskAssignment) (tid : Nat)
    (uids : List Nat) (a : TaskAssignment)
    (h : a.task_id = tid ∧ a.user_id ∉ uids) :
    deleteOtherAssignments (a :: l) tid uids =
      deleteOtherAssignments l tid uids := by
  refine List.filter_cons_of_neg ?_
  intro hc
  exact of_decide_eq_true hc h

/-- Helper: the delete step keeps every other head row. -/
theorem delete_cons_of_keep (l : List TaskAssignment) (tid : Nat)
    (uids : List Nat) (a : TaskAssignment)
    (h : ¬(a.task_id = tid ∧ a.user_id ∉ uids)) :
    deleteOtherAssignments (a :: l) tid uids =
      a :: deleteOtherAssignments l tid uids :=
  List.filter_cons_of_pos (decide_eq_true h)

/-- Helper: looking up a pair of the reconciled task in the table after the
delete step: present iff the user is still desired. -/
theorem findAssign_delete (l : List TaskAssignment) (tid : Nat)
    (uids : List Nat) (u : Nat) :
    findAssign (deleteOtherAssignments l tid uids) tid u =
      if u ∈ uids then findAssign l tid u else none := by
  induction l with
  | nil => simp [deleteOtherAssignments, findAssign]
  | cons a l ih =>
      by_cases hk : a.task_id = tid ∧ a.user_id ∉ uids
      · rw [delete_cons_of_del l tid uids a hk, ih]
        by_cases hu : u ∈ uids
        · have hne : ¬(a.task_id = tid ∧ a.user_id = u) := by
            rintro ⟨h1, h2⟩
            exact hk.2 (h2 ▸ hu)
          rw [findAssign_cons_of_neg l a tid u hne]
        · simp [hu]
      · rw [delete_cons_of_keep l tid uids a hk]
        by_cases hpa : a.task_id = tid ∧ a.user_id = u
        · have hu : u ∈ uids := by
            rcases hpa with ⟨h1, h2⟩
            rcases not_and_or.mp hk with hc | hc
            · exact absurd h1 hc
            · exact h2 ▸ not_not.mp hc
          rw [findAssign_cons_of_pos _ a tid u hpa,
              findAssign_cons_of_pos l a tid u hpa, if_pos hu]
        · rw [findAssign_cons_of_neg _ a tid u hpa,
              findAssign_cons_of_neg l a tid u hpa, ih]

/-- Helper: the delete step of the reconciler never touches the rows of a
different task. -/
theorem findAssign_delete_other (l : List TaskAssignment) (tid : Nat)
    (uids : List Nat) (tid' u : Nat) (h : tid' ≠ tid) :
    findAssign (deleteOtherAssignments l tid uids) tid' u =
      findAssign l tid' u := by
  induction l with
  | nil => rfl
  | cons a l ih =>
      by_cases hk : a.task_id = tid ∧ a.user_id ∉ uids
      · have hne : ¬(a.task_id = tid' ∧ a.user_id = u) := by
          rintro ⟨h1, _⟩
          exact h (h1.symm.trans hk.1)
        rw [delete_cons_of_del l tid uids a hk, ih,
            findAssign_cons_of_neg l a tid' u hne]
      · rw [delete_cons_of_keep l tid uids a hk]
        by_cases hpa : a.task_id = tid' ∧ a.user_id = u
        · rw [findAssign_cons_of_pos _ a tid' u hpa,
              findAssign_cons_of_pos l a tid' u hpa]
        · rw [findAssign_cons_of_neg _ a tid' u hpa,
              findAssign_cons_of_neg l a tid' u hpa, ih]

/-- Helper: the second component of the `assign_to_users` fold (the table)
equals the plain `get_or_create` fold over the table. -/
theorem assignFold_snd (uids : List Nat) (tid : Nat) (actor : Option Nat)
    (now : Nat) (p : List TaskAssignment × List TaskAssignment) :
    (uids.foldl
      (fun acc uid =>
        let r := getOrCreateAssign acc.2 tid uid actor now
        (acc.1 ++ [r.1], r.2)) p).2 =
      uids.foldl (fun acc uid => (getOrCreateAssign acc tid uid actor now).2) p.2 := by
  induction uids generalizing p with
  | nil => rfl
  | cons v rest ih =>
      rw [List.foldl_cons, List.foldl_cons]
      exact ih _

/-- Helper: `get_or_create` never removes a row. -/
theorem mem_getOrCreateAssign_snd (l : List TaskAssignment) (tid uid : Nat)
    (actor : Option Nat) (now : Nat) (a : TaskAssignment) (h : a ∈ l) :
    a ∈ (getOrCreateAssign l tid uid actor now).2 := by
  rcases hf : findAssign l tid uid with _ | b
  · simp [getOrCreateAssign, hf, h]
  · simpa [getOrCreateAssign, hf] using h

/-- Helper: the `get_or_create` fold never removes a row. -/
theorem mem_foldAssign (uids : List Nat) (tid : Nat) (actor : Option Nat)
    (now : Nat) (acc : List TaskAssignment) (a : TaskAssignment) (h : a ∈ acc) :
    a ∈ uids.foldl (fun acc uid => (getOrCreateAssign acc tid uid actor now).2) acc := by
  induction uids generalizing acc with
  | nil => simpa using h
  | cons v rest ih =>
      rw [List.foldl_cons]
      exact ih _ (mem_getOrCreateAssign_snd _ _ _ _ _ _ h)

/-- Helper: `get_or_create` preserves the `(task, user)` uniqueness
invariant: it appends a row only when no row for the pair exists. -/
theorem uniquePairs_getOrCreate (l : List TaskAssignment) (tid uid : Nat)
    (actor : Option Nat) (now : Nat) (h : uniquePairs l) :
    uniquePairs (getOrCreateAssign l tid uid actor now).2 := by
  rcases hf : findAssign l tid uid with _ | b
  · have hsnd : (getOrCreateAssign l tid uid actor now).2 =
        l ++ [{ task_id := tid, user_id := uid, assigned_at := now,
                assigned_by := actor }] := by
      simp [getOrCreateAssign, hf]
    rw [hsnd]
    refine List.pairwise_append.mpr ⟨h, List.pairwise_singleton _ _, ?_⟩
    intro a ha b hb
    rcases List.mem_singleton.mp hb with rfl
    by_cases h1 : a.task_id = tid
    · right
      intro h2
      have hp := List.find?_eq_none.mp hf a ha
      exact hp (decide_eq_true ⟨h1, h2⟩)
    · left
      exact h1
  · have hsnd : (getOrCreateAssign l tid uid actor now).2 = l := by
      simp [getOrCreateAssign, hf]
    rw [hsnd]
    exact h

/-- Helper: the `get_or_create` fold preserves the uniqueness invariant. -/
theorem uniquePairs_foldAssign (uids : List Nat) (tid : Nat)
    (actor : Option Nat) (now : Nat) (acc : List TaskAssignment)
    (h : uniquePairs acc) :
    uniquePairs
      (uids.foldl (fun acc uid => (getOrCreateAssign acc tid uid actor now).2) acc) := by
  induction uids generalizing acc with
  | nil => simpa using h
  | cons v rest ih =>
      rw [List.foldl_cons]
      exact ih _ (uniquePairs_getOrCreate _ _ _ _ _ h)

/-- Helper: deleting rows preserves the uniqueness invariant. -/
theorem uniquePairs_delete (l : List TaskAssignment) (tid : Nat)
    (uids : List Nat) (h : uniquePairs l) :
    uniquePairs (deleteOtherAssignments l tid uids) :=
  List.Pairwise.sublist (List.filter_sublist l) h

/-- Helper: when no write raises, running the steps computes their fold. -/
theorem runSteps_no_fail {α : Type} (steps : List (α → α))
    (failAt : Nat → Bool) (k : Nat) (s : α)
    (h : ∀ j, j < steps.length → failAt (k + j) = false) :
    runSteps steps failAt k s = some (steps.foldl (fun s f => f s) s) := by
  induction steps generalizing k s with
  | nil => rfl
  | cons f rest ih =>
      have h0 : failAt k = false := by simpa using h 0 (Nat.succ_pos _)
      have htail : ∀ j, j < rest.length → failAt (k + 1 + j) = false := by
        intro j hj
        have hh := h (j + 1) (by simpa using Nat.succ_lt_succ hj)
        rwa [show k + (j + 1) = k + 1 + j by omega] at hh
      calc runSteps (f :: rest) failAt k s
          = runSteps rest failAt (k + 1) (f s) := by simp [runSteps, h0]
        _ = some (rest.foldl (fun s f => f s) (f s)) := ih (k + 1) (f s) htail
        _ = some ((f :: rest).foldl (fun s f => f s) s) := by
              rw [List.foldl_cons]

/-- Helper: when some write within the sequence raises, running the steps
reports a failure. -/
theorem runSteps_fail {α : Type} (steps : List (α → α)) (failAt : Nat → Bool)
    (k : Nat) (s : α)
    (h : ∃ j, j < steps.length ∧ failAt (k + j) = true) :
    runSteps steps failAt k s = none := by
  induction steps generalizing k s with
  | nil =>
      rcases h with ⟨j, hj, _⟩
      simp at hj
  | cons f rest ih =>
      by_cases h0 : failAt k = true
      · simp [runSteps, h0]
      · have h0' : failAt k = false := by
          cases hb : failAt k
          · rfl
          · exact absurd hb h0
        rcases h with ⟨j, hj, hf⟩
        cases j with
        | zero =>
            rw [Nat.add_zero] at hf
            exact absurd hf h0
        | succ j' =>
            have hone : runSteps (f :: rest) failAt k s =
                runSteps rest failAt (k + 1) (f s) := by
              simp [runSteps, h0']
            rw [hone]
            refine ih (k + 1) (f s) ⟨j', ?_, ?_⟩
            · simpa using Nat.lt_of_succ_lt_succ hj
            · rwa [show k + (j' + 1) = k + 1 + j' by omega] at hf
/-- Helper: folding the reconcile step sequence is the reconciler. -/
theorem reconcileSteps_foldl (l : List TaskAssignment) (tid : Nat)
    (uids : List Nat) (actor : Option Nat) (now : Nat) :
    (reconcileSteps tid uids actor now).foldl (fun s f => f s) l =
      reconcileAssignments l tid uids actor now := by
  simp [reconcileSteps, reconcileAssignments, List.foldl_cons, List.foldl_map]

/-- Helper: with distinct user rows and desired ids all resolving, the
`id__in` query returns exactly as many users as ids were requested. -/
theorem length_filter_mem_eq (users value : List Nat) (hu : users.Nodup)
    (hv : value.Nodup) (hsub : ∀ i, i ∈ value → i ∈ users) :
    (users.filter (fun u => decide (u ∈ value))).length = value.length := by
  have hn : (users.filter (fun u => decide (u ∈ value))).Nodup :=
    hu.filter _
  have hmem : ∀ x, x ∈ users.filter (fun u => decide (u ∈ value)) ↔ x ∈ value := by
    intro x
    constructor
    · intro hx
      exact of_decide_eq_true (List.mem_filter.mp hx).2
    · intro hx
      exact List.mem_filter.mpr ⟨hsub x hx, decide_eq_true hx⟩
  exact ((List.perm_ext_iff_of_nodup hn hv).mpr hmem).length_eq

/-- Helper: with distinct user rows and distinct desired ids of which one is
unknown, the `id__in` query returns strictly fewer users than requested. -/
theorem length_filter_mem_lt (users value : List Nat) (hu : users.Nodup)
    (hv : value.Nodup) (i0 : Nat) (hiv : i0 ∈ value) (hiu : i0 ∉ users) :
    (users.filter (fun u => decide (u ∈ value))).length < value.length := by
  have hn : (users.filter (fun u => decide (u ∈ value))).Nodup :=
    hu.filter _
  have hw : (value.filter (fun v => decide (v ∈ users))).Nodup :=
    hv.filter _
  have hmem : ∀ x, x ∈ users.filter (fun u => decide (u ∈ value)) ↔
      x ∈ value.filter (fun v => decide (v ∈ users)) := by
    intro x
    constructor
    · intro hx
      rcases List.mem_filter.mp hx with ⟨h1, h2⟩
      exact List.mem_filter.mpr ⟨of_decide_eq_true h2, decide_eq_true h1⟩
    · intro hx
      rcases List.mem_filter.mp hx with ⟨h1, h2⟩
      exact List.mem_filter.mpr ⟨of_decide_eq_true h2, decide_eq_true h1⟩
  have h1 : (users.filter (fun u => decide (u ∈ value))).length =
      (value.filter (fun v => decide (v ∈ users))).length :=
    ((List.perm_ext_iff_of_nodup hn hw).mpr hmem).length_eq
  have h2 : (value.filter (fun v => decide (v ∈ users))).length ≤ value.length :=
    (List.filter_sublist value).length_le
  have h3 : (value.filter (fun v => decide (v ∈ users))).length ≠ value.length := by
    intro he
    have heq : value.filter (fun v => decide (v ∈ users)) = value :=
      (List.filter_sublist value).eq_of_length he
    have : i0 ∈ value.filter (fun v => decide (v ∈ users)) := by
      rw [heq]
      exact hiv
    exact hiu (of_decide_eq_true (List.mem_filter.mp this).2)
  rw [h1]
  exact Nat.lt_of_le_of_ne h2 h3

/-- C3: a reconcile request containing unknown user ids is rejected with a
validation error naming every unresolved id, and nothing is written: the
endpoint returns the error produced by `validate_user_ids`, whose reported
list holds exactly the requested ids that are not user ids. -/
theorem reconcile_unknown_ids_rejected
    (users : List Nat) (l : List TaskAssignment) (tid : Nat)
    (value : List Nat) (actor : Option Nat) (now : Nat)
    (hu : users.Nodup) (hv : value.Nodup)
    (hbad : ∃ i, i ∈ value ∧ i ∉ users) :
    assignEndpoint users l tid value actor now =
        Except.error (value.filter (fun i => decide (i ∉ users))) ∧
      ∀ i, i ∈ value.filter (fun i => decide (i ∉ users)) ↔
        i ∈ value ∧ i ∉ users := by
  obtain ⟨i0, hi0v, hi0u⟩ := hbad
  have hlt := length_filter_mem_lt users value hu hv i0 hi0v hi0u
  have hcond : (users.filter (fun u => decide (u ∈ value))).length ≠
      value.length := Nat.ne_of_lt hlt
  have hmiss : value.filter (fun i =>
      decide (i ∉ users.filter (fun u => decide (u ∈ value)))) =
      value.filter (fun i => decide (i ∉ users)) := by
    refine List.filter_congr ?_
    intro x hx
    have hiff : x ∈ users.filter (fun u => decide (u ∈ value)) ↔ x ∈ users :=
      ⟨fun hh => (List.mem_filter.mp hh).1,
       fun hh => List.mem_filter.mpr ⟨hh, decide_eq_true hx⟩⟩
    by_cases hxu : x ∈ users
    · have d1 : decide (x ∉ users.filter (fun u => decide (u ∈ value))) = false :=
        decide_eq_false (fun hc => hc (hiff.mpr hxu))
      have d2 : decide (x ∉ users) = false :=
        decide_eq_false (fun hc => hc hxu)
      rw [d1, d2]
    · have d1 : decide (x ∉ users.filter (fun u => decide (u ∈ value))) = true :=
        decide_eq_true (fun hc => hxu (hiff.mp hc))
      have d2 : decide (x ∉ users) = true := decide_eq_true hxu
      rw [d1, d2]
  have hval : validate_user_ids users value =
      Except.error (value.filter (fun i => decide (i ∉ users))) := by
    simp only [validate_user_ids]
    rw [if_pos hcond, hmiss]
  refine ⟨?_, ?_⟩
  · simp [assignEndpoint, hval]
  · intro i
    simp [List.mem_filter]

/-- C3 witness: with users 1 and 2, reconciling task 7 with desired ids
2 and 3 is rejected reporting exactly the id 3. -/
theorem reconcile_unknown_ids_rejected_witness :
    assignEndpoint [1, 2] [] 7 [2, 3] none 0 = Except.error [3] :=
  (reconcile_unknown_ids_rejected [1, 2] [] 7 [2, 3] none 0
    (by decide) (by decide) ⟨3, by decide, by decide⟩).1

/-- C10: an assignment request listing only existing user ids but listing
one of them twice is rejected, and the reported list of non-existent ids is
empty: the length comparison counts each user once while counting the
duplicate twice, and every listed id is then excluded from the missing
list because it was found. -/
theorem duplicate_ids_rejected_with_empty_list (users value : List Nat)
    (hu : users.Nodup) (hall : ∀ i, i ∈ value → i ∈ users)
    (hd : ¬value.Nodup) :
    validate_user_ids users value = Except.error [] := by
  have hn : (users.filter (fun u => decide (u ∈ value))).Nodup :=
    hu.filter _
  have hmem : ∀ x, x ∈ users.filter (fun u => decide (u ∈ value)) ↔
      x ∈ value.dedup := by
    intro x
    constructor
    · intro hx
      exact List.mem_dedup.mpr (of_decide_eq_true (List.mem_filter.mp hx).2)
    · intro hx
      have hxv := List.mem_dedup.mp hx
      exact List.mem_filter.mpr ⟨hall x hxv, decide_eq_true hxv⟩
  have hlen : (users.filter (fun u => decide (u ∈ value))).length =
      value.dedup.length :=
    ((List.perm_ext_iff_of_nodup hn (List.nodup_dedup value)).mpr hmem).length_eq
  have hdlt : value.dedup.length < value.length := by
    have hle := (List.dedup_sublist value).length_le
    rcases Nat.lt_or_ge value.dedup.length value.length with h | h
    · exact h
    · exfalso
      have heq : value.dedup.length = value.length :=
        Nat.le_antisymm hle h
      have hdv : value.dedup = value :=
        (List.dedup_sublist value).eq_of_length heq
      exact hd (hdv ▸ List.nodup_dedup value)
  have hcond : (users.filter (fun u => decide (u ∈ value))).length ≠
      value.length := by
    rw [hlen]
    exact Nat.ne_of_lt hdlt
  have hmiss : value.filter (fun i =>
      decide (i ∉ users.filter (fun u => decide (u ∈ value)))) = [] := by
    refine List.filter_eq_nil_iff.mpr ?_
    intro a ha
    intro hc
    exact (of_decide_eq_true hc)
      (List.mem_filter.mpr ⟨hall a ha, decide_eq_true ha⟩)
  simp only [validate_user_ids]
  rw [if_pos hcond, hmiss]

/-- C10 witness: with users 1 and 2, requesting user ids 1 and 1 is
rejected with an empty list of missing ids. -/
theorem duplicate_ids_rejected_with_empty_list_witness :
    validate_user_ids [1, 2] [1, 1] = Except.error [] :=
  duplicate_ids_rejected_with_empty_list [1, 2] [1, 1]
    (by decide) (by decide) (by decide)

/-- C1: reconciling a task's assignees with a desired id set (all ids
resolving, as distinct ids of existing users) succeeds and replaces the
set exactly: afterwards the row for `(task, u)` is the original row when
`u` was already assigned and stays desired (so its `assigned_at` and
`assigned_by` are preserved), a fresh row stamped with the current time and
the acting user when `u` is newly desired, and absent when `u` is no longer
desired; rows of other tasks are untouched. -/
theorem reconcile_exact_set_replacement
    (users : List Nat) (l : List TaskAssignment) (tid : Nat)
    (uids : List Nat) (actor : Option Nat) (now : Nat)
    (hu : users.Nodup) (hv : uids.Nodup)
    (hall : ∀ i, i ∈ uids → i ∈ users) :
    assignEndpoint users l tid uids actor now =
        Except.ok (reconcileAssignments l tid uids actor now) ∧
      (∀ u, findAssign (reconcileAssignments l tid uids actor now) tid u =
        if u ∈ uids then
          some ((findAssign l tid u).getD
            { task_id := tid, user_id := u, assigned_at := now,
              assigned_by := actor })
        else none) ∧
      ∀ tid' u, tid' ≠ tid →
        findAssign (reconcileAssignments l tid uids actor now) tid' u =
          findAssign l tid' u := by
  refine ⟨?_, ?_, ?_⟩
  · have hlen := length_filter_mem_eq users uids hu hv hall
    have hval : validate_user_ids users uids = Except.ok uids := by
      simp only [validate_user_ids]
      rw [if_neg (not_not_intro hlen)]
    simp [assignEndpoint, hval]
  · intro u
    unfold reconcileAssignments
    rw [foldAssign_findAssign, findAssign_delete]
    by_cases hmem : u ∈ uids
    · simp [hmem]
    · simp [hmem]
  · intro tid' u hne
    unfold reconcileAssignments
    rw [foldAssign_findAssign_other _ _ _ _ _ _ _ hne,
        findAssign_delete_other _ _ _ _ _ hne]

/-- C1 witness: reconciling task 7, previously assigned to user 1 (by
user 9), with desired set containing only user 2, succeeds; the table ends
with exactly the new row for user 2 assigned by the actor 4. -/
theorem reconcile_exact_set_replacement_witness :
    assignEndpoint [1, 2, 3] [⟨7, 1, 0, some 9⟩] 7 [2] (some 4) 5 =
        Except.ok (reconcileAssignments [⟨7, 1, 0, some 9⟩] 7 [2] (some 4) 5) ∧
      findAssign (reconcileAssignments [⟨7, 1, 0, some 9⟩] 7 [2] (some 4) 5) 7 2 =
        some ⟨7, 2, 5, some 4⟩ := by
  have h := reconcile_exact_set_replacement [1, 2, 3] [⟨7, 1, 0, some 9⟩] 7 [2]
    (some 4) 5 (by decide) (by decide) (by decide)
  refine ⟨h.1, ?_⟩
  rw [h.2.1 2]
  decide

/-- C7: the `(task, user)` pair is unique and a second assignment attempt is
a no-op: `get_or_create` on an existing pair returns the existing record
and leaves the table unchanged, and both `assign_to_users` and the
reconciler preserve the pairwise uniqueness invariant backing
`unique_together = ('task', 'user')`. -/
theorem taskAssignment_pair_unique :
    (∀ (l : List TaskAssignment) (tid uid : Nat) (actor : Option Nat)
        (now : Nat) (a : TaskAssignment),
      findAssign l tid uid = some a →
        getOrCreateAssign l tid uid actor now = (a, l)) ∧
      (∀ (l : List TaskAssignment) (tid : Nat) (uids : List Nat)
          (actor : Option Nat) (now : Nat), uniquePairs l →
        uniquePairs (assign_to_users l tid uids actor now).2) ∧
      ∀ (l : List TaskAssignment) (tid : Nat) (uids : List Nat)
          (actor : Option Nat) (now : Nat), uniquePairs l →
        uniquePairs (reconcileAssignments l tid uids actor now) := by
  refine ⟨?_, ?_, ?_⟩
  · intro l tid uid actor now a hf
    simp [getOrCreateAssign, hf]
  · intro l tid uids actor now h
    unfold assign_to_users
    rw [assignFold_snd]
    exact uniquePairs_foldAssign _ _ _ _ _ h
  · intro l tid uids actor now h
    unfold reconcileAssignments
    exact uniquePairs_foldAssign _ _ _ _ _ (uniquePairs_delete _ _ _ h)

/-- C7 witness: assigning user 1 to task 7 again returns the existing row
unchanged, and assigning users 1 and 2 keeps the pairs unique. -/
theorem taskAssignment_pair_unique_witness :
    getOrCreateAssign [⟨7, 1, 0, some 9⟩] 7 1 (some 4) 5 =
        (⟨7, 1, 0, some 9⟩, [⟨7, 1, 0, some 9⟩]) ∧
      uniquePairs (assign_to_users [⟨7, 1, 0, some 9⟩] 7 [1, 2] (some 4) 5).2 :=
  ⟨taskAssignment_pair_unique.1 [⟨7, 1, 0, some 9⟩] 7 1 (some 4) 5
      ⟨7, 1, 0, some 9⟩ (by decide),
    taskAssignment_pair_unique.2.1 [⟨7, 1, 0, some 9⟩] 7 [1, 2] (some 4) 5
      (by decide)⟩

/-- C8: `assign_to_users` is additive: it never removes an existing row
(even for users absent from the list), it ensures a row for every requested
id, and a pair that already had a row keeps exactly that row. -/
theorem assign_additive
    (l : List TaskAssignment) (tid : Nat) (uids : List Nat)
    (actor : Option Nat) (now : Nat) :
    (∀ a, a ∈ l → a ∈ (assign_to_users l tid uids actor now).2) ∧
      (∀ uid, uid ∈ uids →
        ∃ a, a ∈ (assign_to_users l tid uids actor now).2 ∧
          a.task_id = tid ∧ a.user_id = uid) ∧
      ∀ uid a, findAssign l tid uid = some a →
        findAssign (assign_to_users l tid uids actor now).2 tid uid = some a := by
  have hsnd : (assign_to_users l tid uids actor now).2 =
      uids.foldl (fun acc uid => (getOrCreateAssign acc tid uid actor now).2) l := by
    unfold assign_to_users
    exact assignFold_snd _ _ _ _ _
  refine ⟨?_, ?_, ?_⟩
  · intro a ha
    rw [hsnd]
    exact mem_foldAssign _ _ _ _ _ _ ha
  · intro uid hmem
    rw [hsnd]
    have hfind := foldAssign_findAssign uids tid uid actor now l
    rw [if_pos hmem] at hfind
    have hfind2 : List.find? (fun a => decide (a.task_id = tid ∧ a.user_id = uid))
        (uids.foldl (fun acc uid => (getOrCreateAssign acc tid uid actor now).2) l) =
        some ((findAssign l tid uid).getD
          { task_id := tid, user_id := uid, assigned_at := now,
            assigned_by := actor }) := hfind
    have hb := List.find?_some hfind2
    have hp := of_decide_eq_true hb
    exact ⟨_, List.mem_of_find?_eq_some hfind2, hp.1, hp.2⟩
  · intro uid a hf
    rw [hsnd]
    have hfind := foldAssign_findAssign uids tid uid actor now l
    by_cases hmem : uid ∈ uids
    · rw [if_pos hmem, hf] at hfind
      simpa using hfind
    · rw [if_neg hmem] at hfind
      rw [hfind, hf]

/-- C8 witness: assigning user 2 to task 7 keeps the unrelated existing
row of user 1 in the table. -/
theorem assign_additive_witness :
    (⟨7, 1, 0, some 9⟩ : TaskAssignment) ∈
      (assign_to_users [⟨7, 1, 0, some 9⟩] 7 [2] (some 4) 5).2 :=
  (assign_additive [⟨7, 1, 0, some 9⟩] 7 [2] (some 4) 5).1
    ⟨7, 1, 0, some 9⟩ (by decide)

/-- C4: the reconcile body is all-or-nothing: executed inside the
transaction, a run in which no write raises commits the reconciled table,
and a run in which some write of the sequence raises leaves the table
exactly as before the call. -/
theorem reconcile_atomic
    (l : List TaskAssignment) (tid : Nat) (uids : List Nat)
    (actor : Option Nat) (now : Nat) (failAt : Nat → Bool) :
    ((∀ k, k < (reconcileSteps tid uids actor now).length → failAt k = false) →
      atomicReconcile l tid uids actor now failAt =
        reconcileAssignments l tid uids actor now) ∧
      ((∃ k, k < (reconcileSteps tid uids actor now).length ∧ failAt k = true) →
        atomicReconcile l tid uids actor now failAt = l) := by
  constructor
  · intro h
    have hrun := runSteps_no_fail (reconcileSteps tid uids actor now) failAt 0 l
      (fun j hj => by simpa using h j hj)
    unfold atomicReconcile
    rw [hrun, reconcileSteps_foldl]
  · intro h
    obtain ⟨k, hk, hf⟩ := h
    have hrun := runSteps_fail (reconcileSteps tid uids actor now) failAt 0 l
      ⟨k, hk, by simpa using hf⟩
    unfold atomicReconcile
    rw [hrun]

/-- C4 witness: reconciling task 7 to user set containing only 2 with the
second write (the insert) raising leaves the table exactly as it was. -/
theorem reconcile_atomic_witness :
    atomicReconcile [⟨7, 1, 0, some 9⟩] 7 [2] (some 4) 5
        (fun k => decide (k = 1)) = [⟨7, 1, 0, some 9⟩] :=
  (reconcile_atomic [⟨7, 1, 0, some 9⟩] 7 [2] (some 4) 5
      (fun k => decide (k = 1))).2 ⟨1, by decide, by decide⟩

/-- C5: creating a task with status `completed` is rejected by
`validate_status`, and no other status is rejected: `createTask` errors
exactly when the requested status is `completed`. -/
theorem create_rejects_completed_only (inp : TaskCreateInput) (now : Nat) :
    (∃ e, createTask inp now = Except.error e) ↔ inp.status = Status.completed := by
  constructor
  · rintro ⟨e, he⟩
    by_contra h
    simp [createTask, validate_status, h] at he
  · intro h
    refine ⟨"Cannot create a task with 'completed' status. Create it first, then mark as completed.", ?_⟩
    simp [createTask, validate_status, h]

/-- C5 witness: creating the sample input with status `completed` at time 0
is rejected with a validation error. -/
theorem create_rejects_completed_only_witness :
    ∃ e, createTask (TaskCreateInput.mk "t" "" none Status.completed) 0 =
      Except.error e :=
  (create_rejects_completed_only
    (TaskCreateInput.mk "t" "" none Status.completed) 0).mpr rfl

/-- C2: evaluating the code at the failing input: completing the sample
task at time 0 and again at time 1 changes `completed_at` from `some 0` to
`some 1` — `Task.mark_completed` overwrites the timestamp unconditionally,
so the second `complete` call does not preserve the value set by the
first, contradicting the claimed idempotence. -/
theorem complete_twice_changes_completed_at :
    (completeAction 1 (completeAction 0 sampleTask)).completed_at ≠
      (completeAction 0 sampleTask).completed_at := by
  decide

/-- General characterization of the implemented behavior: completing a task
twice yields the same task as completing it once at the time of the second
call — the second call overwrites `completed_at` with its own current
time. -/
theorem complete_overwrites_completed_at (t : Task) (n₁ n₂ : Nat) :
    completeAction n₂ (completeAction n₁ t) = completeAction n₂ t := by
  simp [completeAction, saveTask, task_pre_save, mark_completed]

/-- C9: `cancel` sets the status to `cancelled` and changes nothing else:
`name`, `description`, `task_type`, `created_at` and `completed_at` keep
their values (the `pre_save` signal does not fire its completion branch
because the new status is not `completed`). -/
theorem cancel_only_changes_status (now : Nat) (t : Task) :
    (cancelAction now t).status = Status.cancelled ∧
    (cancelAction now t).name = t.name ∧
    (cancelAction now t).description = t.description ∧
    (cancelAction now t).task_type = t.task_type ∧
    (cancelAction now t).created_at = t.created_at ∧
    (cancelAction now t).completed_at = t.completed_at := by
  simp [cancelAction, saveTask, task_pre_save, mark_completed]

/-- C6: updating a task whose `completed_at` is null with a payload whose
status is `completed` leaves `completed_at` non-null after the same update
call, with no separate `complete` request. -/
theorem update_to_completed_sets_completed_at
    (t : Task) (d : UpdateData) (now : Nat)
    (hnull : t.completed_at = none)
    (hst : d.status = some Status.completed) :
    (updateAction t d now).completed_at = some now := by
  simp [updateAction, saveTask, task_pre_save, applyUpdate, mark_completed, hst]

/-- C6 witness: the sample task updated with status `completed` at time 5
gets `completed_at = some 5`. -/
theorem update_to_completed_sets_completed_at_witness :
    (updateAction sampleTask
      { name := none, description := none, task_type := none,
        status := some Status.completed } 5).completed_at = some 5 :=
  update_to_completed_sets_completed_at sampleTask
    { name := none, description := none, task_type := none,
      status := some Status.completed } 5 rfl rfl

end TaskMgmt
